import Mathlib

/-!
Verification of the Clipper2 headers (clipper.engine.h, clipper.offset.h) and
the test-file writer (Utils/ClipFileSave.cpp).

Machine integers (int64_t) are modelled as ℤ, C++ doubles as ℚ (every constant
appearing in the verified code is exactly representable), bytes as ℕ below 256.
-/

set_option maxRecDepth 8000

/-! ## Core data (usage of clipper.core.h by the files under verification) -/

structure Point64 where
  x : ℤ
  y : ℤ
deriving DecidableEq

structure PointD where
  x : ℚ
  y : ℚ
deriving DecidableEq

abbrev Path64 := List Point64
abbrev Paths64 := List Path64
abbrev PathD := List PointD
abbrev PathsD := List PathD

/-! ## Enumerations (clipper.engine.h lines 32-42, clipper.offset.h lines 18-20) -/

inductive ClipType where
  | None | Intersection | Union | Difference | Xor
deriving DecidableEq

inductive PathType where
  | Subject | Clip
deriving DecidableEq

inductive FillRule where
  | EvenOdd | NonZero | Positive | Negative
deriving DecidableEq

inductive JoinType where
  | Square | Round | Miter
deriving DecidableEq

inductive EndType where
  | Polygon | Joined | Butt | Square | Round
deriving DecidableEq

/-! ## ClipperBase (clipper.engine.h lines 149-254)

Only the scalar state with in-class initialisers is modelled; the pointer and
container members (actives_, minima_list_, vertex_lists_, ...) start empty and
are built by clipper.engine.cpp, which is not part of the verified sources.
`added_paths_` records the AddPaths calls. -/

structure ClipperBase where
  cliptype_ : ClipType := ClipType.None
  fillrule_ : FillRule := FillRule.EvenOdd
  bot_y_ : ℤ := 0
  error_found_ : Bool := false
  has_open_paths_ : Bool := false
  minima_list_sorted_ : Bool := false
  using_polytree : Bool := false
  PreserveCollinear : Bool := true
  added_paths_ : List (Paths64 × PathType × Bool) := []

/-- `ClipperBase() {}`: the default constructor, all members keep their
in-class initialisers (in particular `bool PreserveCollinear = true`). -/
def ClipperBase.init : ClipperBase := {}

/-- Modelled from the spec: `ClipperBase::AddPaths` (clipper.engine.cpp is not
in src/) enqueues the given paths with their polytype and open flag
("add_subject(paths), add_open_subject(paths), add_clip(paths): enqueue paths;
may be called repeatedly before execute"). -/
def ClipperBase.AddPaths (c : ClipperBase) (paths : Paths64)
    (polytype : PathType) (is_open : Bool) : ClipperBase :=
  { c with added_paths_ := c.added_paths_ ++ [(paths, polytype, is_open)] }

/-! ## Clipper64 (clipper.engine.h lines 332-366) -/

structure Clipper64 extends ClipperBase

def Clipper64.init : Clipper64 := { toClipperBase := ClipperBase.init }

def Clipper64.AddSubject (c : Clipper64) (subjects : Paths64) : Clipper64 :=
  { c with toClipperBase := c.toClipperBase.AddPaths subjects PathType.Subject false }

def Clipper64.AddOpenSubject (c : Clipper64) (open_subjects : Paths64) : Clipper64 :=
  { c with toClipperBase := c.toClipperBase.AddPaths open_subjects PathType.Subject true }

def Clipper64.AddClip (c : Clipper64) (clips : Paths64) : Clipper64 :=
  { c with toClipperBase := c.toClipperBase.AddPaths clips PathType.Clip false }

/-! ## Scaling (used by ClipperD) -/

/-- Modelled from the spec: `ScalePaths<int64_t, double>` (clipper.core.h is not
in src/) multiplies every coordinate by the scale factor and rounds to the
nearest integer ("floating-point inputs are scaled by a user-chosen power of
ten, clipped as integers"). -/
def ScalePathsD64 (paths : PathsD) (scale : ℚ) : Paths64 :=
  paths.map fun path => path.map fun pt =>
    Point64.mk (round (pt.x * scale)) (round (pt.y * scale))

/-- Modelled from the spec: `ScalePaths<double, int64_t>` (clipper.core.h is not
in src/) multiplies every integer coordinate by the scale factor, producing
floating-point output ("and unscaled on output"). -/
def ScalePaths64D (paths : Paths64) (scale : ℚ) : PathsD :=
  paths.map fun path => path.map fun pt =>
    PointD.mk ((pt.x : ℚ) * scale) ((pt.y : ℚ) * scale)

/-! ## ClipperD (clipper.engine.h lines 368-418) -/

/-- Modelled from the spec: the outcome of a `ClipperBase::Execute` call
(clipper.engine.cpp is not in src/): it either errors — returning false with
its (by-reference) solution containers left cleared — or succeeds and fills
them ("an execute is either successful (returns true with outputs populated)
or marked errored (returns false, outputs empty)"). The outcome is abstracted
as a value of this type. -/
inductive BaseExecResult where
  | failed : BaseExecResult
  | ok (closed : Paths64) (open_solution : Paths64) : BaseExecResult

structure ClipperD extends ClipperBase where
  scale_ : ℚ

/-- `explicit ClipperD(int precision = 0) : scale_(std::pow(10, precision))`. -/
def ClipperD.init (precision : ℤ) : ClipperD :=
  { toClipperBase := ClipperBase.init, scale_ := (10 : ℚ) ^ precision }

def ClipperD.AddSubject (c : ClipperD) (subjects : PathsD) : ClipperD :=
  { c with toClipperBase :=
      c.toClipperBase.AddPaths (ScalePathsD64 subjects c.scale_) PathType.Subject false }

def ClipperD.AddOpenSubject (c : ClipperD) (open_subjects : PathsD) : ClipperD :=
  { c with toClipperBase :=
      c.toClipperBase.AddPaths (ScalePathsD64 open_subjects c.scale_) PathType.Subject true }

def ClipperD.AddClip (c : ClipperD) (clips : PathsD) : ClipperD :=
  { c with toClipperBase :=
      c.toClipperBase.AddPaths (ScalePathsD64 clips c.scale_) PathType.Clip false }

/-- `ClipperD::Execute(clip_type, fill_rule, closed_paths)` (three-argument
overload, clipper.engine.h line 389): on base failure it returns false without
assigning `closed_paths`; on success it assigns the rescaled solution.
`closed_paths` holds the caller's container contents at entry; the pair is
(return value, container contents at exit). -/
def ClipperD.Execute2 (c : ClipperD) (base : BaseExecResult)
    (closed_paths : PathsD) : Bool × PathsD :=
  match base with
  | BaseExecResult.failed => (false, closed_paths)
  | BaseExecResult.ok closed64 _ => (true, ScalePaths64D closed64 (1 / c.scale_))

/-- `ClipperD::Execute(clip_type, fill_rule, closed_paths, open_paths)`
(four-argument overload, clipper.engine.h line 397), modelled as above. -/
def ClipperD.Execute3 (c : ClipperD) (base : BaseExecResult)
    (closed_paths open_paths : PathsD) : Bool × PathsD × PathsD :=
  match base with
  | BaseExecResult.failed => (false, closed_paths, open_paths)
  | BaseExecResult.ok closed64 open64 =>
      (true, ScalePaths64D closed64 (1 / c.scale_), ScalePaths64D open64 (1 / c.scale_))

/-! ## ClipperOffset (clipper.offset.h lines 39-96) -/

structure ClipperOffset where
  delta_ : ℚ := 0
  temp_lim_ : ℚ := 0
  steps_per_rad_ : ℚ := 0
  join_type_ : JoinType := JoinType.Square
  miter_limit_ : ℚ := 0
  arc_tolerance_ : ℚ := 0
  merge_groups_ : Bool := true
  preserve_collinear_ : Bool := false

/-- The constructor `ClipperOffset(double miter_limit = 2.0, double
arc_tolerance = 0.0, int precision = 2, bool preserve_collinear = false)`: its
initialiser list sets `miter_limit_`, `arc_tolerance_` and
`preserve_collinear_`; every other member (`precision` is unused) keeps its
in-class initialiser. -/
def ClipperOffset.construct (miter_limit arc_tolerance : ℚ) (precision : ℤ)
    (preserve_collinear : Bool) : ClipperOffset :=
  { miter_limit_ := miter_limit, arc_tolerance_ := arc_tolerance,
    preserve_collinear_ := preserve_collinear }

/-- `ClipperOffset()` built with every default argument. -/
def ClipperOffset.defaultInit : ClipperOffset :=
  ClipperOffset.construct 2 0 2 false

def ClipperOffset.MiterLimit (c : ClipperOffset) : ℚ := c.miter_limit_

def ClipperOffset.ArcTolerance (c : ClipperOffset) : ℚ := c.arc_tolerance_

def ClipperOffset.MergeGroups (c : ClipperOffset) : Bool := c.merge_groups_

def ClipperOffset.PreserveCollinear (c : ClipperOffset) : Bool := c.preserve_collinear_

/-! ## PolyPath (clipper.engine.h lines 263-328)

A node is determined, for `IsHole`, by its chain of ancestors: `root` has
`parent_ == nullptr`, `child p` has `parent_` pointing at `p`. -/

inductive PolyPath where
  | root : PolyPath
  | child (parent : PolyPath) : PolyPath

/-- The loop `while (pp) { is_hole = !is_hole; pp = pp->parent_; }` of
`PolyPath::IsHole`, entered at a non-null `pp`: it negates the flag once for
`pp` and once for each ancestor of `pp`. -/
def PolyPath.holeWalk : PolyPath → Bool → Bool
  | PolyPath.root, is_hole => !is_hole
  | PolyPath.child p, is_hole => PolyPath.holeWalk p (!is_hole)

/-- `PolyPath::IsHole` (clipper.engine.h line 310): `bool is_hole = pp;` where
`pp = parent_`, then the negation loop up the parent chain. -/
def PolyPath.IsHole : PolyPath → Bool
  | PolyPath.root => false
  | PolyPath.child p => PolyPath.holeWalk p true

/-- Number of ancestors of a node (the root has depth 0). -/
def PolyPath.depth : PolyPath → ℕ
  | PolyPath.root => 0
  | PolyPath.child p => p.depth + 1

/-! ## Pointwise Boolean-operation semantics (for the commutativity claim) -/

/-- Modelled from the spec: a fill rule maps a winding number to insideness
("EvenOdd: ... count ... is even. NonZero: ... signed sum ... Positive /
Negative: ... based on the sign of that sum"; "Fill rule: predicate mapping
winding number to inside/outside"). -/
def FillRule.isInside : FillRule → ℤ → Bool
  | FillRule.EvenOdd, w => decide (w % 2 ≠ 0)
  | FillRule.NonZero, w => decide (w ≠ 0)
  | FillRule.Positive, w => decide (0 < w)
  | FillRule.Negative, w => decide (w < 0)

/-- Modelled from the spec: the pointwise semantics of the Boolean operation
run by `ExecuteInternal` (clipper.engine.cpp is not in src/): a point with
subject-winding `ws` and clip-winding `wc` belongs to the result of a clip
operation according to Vatti contribution by own- and opposite-polytype
winding ("the system computes their Boolean combination (intersection, union,
difference, or symmetric difference) under a chosen fill rule"). -/
def clipPointResult (ct : ClipType) (fr : FillRule) (ws wc : ℤ) : Bool :=
  match ct with
  | ClipType.None => false
  | ClipType.Intersection => fr.isInside ws && fr.isInside wc
  | ClipType.Union => fr.isInside ws || fr.isInside wc
  | ClipType.Difference => fr.isInside ws && !(fr.isInside wc)
  | ClipType.Xor => Bool.xor (fr.isInside ws) (fr.isInside wc)

/-! ## Theorems: engine wrapper, defaults, tree, commutativity -/

theorem parity_decide_flip (n : ℕ) :
    (!(decide (n % 2 = 1))) = decide ((n + 1) % 2 = 1) := by
  rcases Nat.mod_two_eq_zero_or_one n with h | h <;> simp [Nat.add_mod, h]

theorem PolyPath.holeWalk_eq (p : PolyPath) :
    ∀ h : Bool, p.holeWalk h = Bool.xor h (decide ((p.depth + 1) % 2 = 1)) := by
  induction p with
  | root =>
      intro h
      cases h <;> simp [PolyPath.holeWalk, PolyPath.depth]
  | child q ih =>
      intro h
      have step : PolyPath.holeWalk (PolyPath.child q) h = PolyPath.holeWalk q (!h) := rfl
      rw [step, ih (!h)]
      have dstep : PolyPath.depth (PolyPath.child q) = q.depth + 1 := rfl
      rw [dstep, ← parity_decide_flip]
      cases h <;> cases hq : decide ((q.depth + 1) % 2 = 1) <;> simp <;> omega

theorem PolyPath.IsHole_eq (p : PolyPath) :
    p.IsHole = decide (2 ≤ p.depth ∧ p.depth % 2 = 0) := by
  cases p with
  | root => simp [PolyPath.IsHole, PolyPath.depth]
  | child q =>
      have step : PolyPath.IsHole (PolyPath.child q) = PolyPath.holeWalk q true := rfl
      have dstep : PolyPath.depth (PolyPath.child q) = q.depth + 1 := rfl
      rw [step, PolyPath.holeWalk_eq q true, dstep]
      rcases Nat.mod_two_eq_zero_or_one q.depth with h | h
      · have e1 : (q.depth + 1) % 2 = 1 := by omega
        have e2 : ¬(2 ≤ q.depth + 1 ∧ (q.depth + 1) % 2 = 0) := by omega
        simp [e1, e2]
      · have e1 : ¬((q.depth + 1) % 2 = 1) := by omega
        have e2 : 2 ≤ q.depth + 1 ∧ (q.depth + 1) % 2 = 0 := by omega
        simp [e1, e2]

/-- C5: for every node of a PolyTree, `IsHole()` is false at the root and at
every direct child of the root; for any deeper node it is the negation of its
parent's value; hence `IsHole()` holds exactly at even depth ≥ 2 below the
root. -/
theorem isHole_characterisation (p : PolyPath) :
    PolyPath.IsHole PolyPath.root = false ∧
    PolyPath.IsHole (PolyPath.child PolyPath.root) = false ∧
    (∀ q : PolyPath, PolyPath.IsHole (PolyPath.child (PolyPath.child q)) =
      !(PolyPath.IsHole (PolyPath.child q))) ∧
    PolyPath.IsHole p = decide (2 ≤ p.depth ∧ p.depth % 2 = 0) := by
  refine ⟨rfl, rfl, ?_, PolyPath.IsHole_eq p⟩
  intro q
  rw [PolyPath.IsHole_eq, PolyPath.IsHole_eq]
  have d2 : PolyPath.depth (PolyPath.child (PolyPath.child q)) = q.depth + 2 := rfl
  have d1 : PolyPath.depth (PolyPath.child q) = q.depth + 1 := rfl
  rw [d2, d1]
  rcases Nat.mod_two_eq_zero_or_one q.depth with h | h
  · have e1 : 2 ≤ q.depth + 2 ∧ (q.depth + 2) % 2 = 0 := by omega
    have e2 : ¬(2 ≤ q.depth + 1 ∧ (q.depth + 1) % 2 = 0) := by omega
    simp [e1, e2]
    omega
  · have e1 : ¬(2 ≤ q.depth + 2 ∧ (q.depth + 2) % 2 = 0) := by omega
    have e2 : 2 ≤ q.depth + 1 ∧ (q.depth + 1) % 2 = 0 := by omega
    simp [e1, e2]
    omega

/-- C4: a `ClipperOffset` constructed with no arguments has `MiterLimit()`
2.0, `ArcTolerance()` 0.0, `MergeGroups()` true and `PreserveCollinear()`
false. -/
theorem clipperOffset_default_properties :
    ClipperOffset.defaultInit.MiterLimit = 2 ∧
    ClipperOffset.defaultInit.ArcTolerance = 0 ∧
    ClipperOffset.defaultInit.MergeGroups = true ∧
    ClipperOffset.defaultInit.PreserveCollinear = false :=
  ⟨rfl, rfl, rfl, rfl⟩

/-- C10: a freshly constructed clipping engine (`ClipperBase`, hence
`Clipper64` and `ClipperD`) has `PreserveCollinear` true, while a freshly
constructed `ClipperOffset` has `PreserveCollinear()` false. -/
theorem preserve_collinear_defaults_disagree (p : ℤ) :
    ClipperBase.init.PreserveCollinear = true ∧
    Clipper64.init.PreserveCollinear = true ∧
    (ClipperD.init p).PreserveCollinear = true ∧
    ClipperOffset.defaultInit.PreserveCollinear = false :=
  ⟨rfl, rfl, rfl, rfl⟩

/-- C2: swapping the subject and clip roles leaves the result of Intersection
and of Xor unchanged, pointwise in the winding numbers, for every fill rule. -/
theorem intersection_xor_commute (fr : FillRule) (ws wc : ℤ) :
    clipPointResult ClipType.Intersection fr ws wc =
      clipPointResult ClipType.Intersection fr wc ws ∧
    clipPointResult ClipType.Xor fr ws wc =
      clipPointResult ClipType.Xor fr wc ws := by
  constructor
  · simp only [clipPointResult]
    exact Bool.and_comm _ _
  · simp only [clipPointResult]
    exact Bool.xor_comm _ _

/-- C1 as stated is false: a failed `ClipperD::Execute` does not leave the
caller's output container empty — it merely leaves it untouched, so a
container that was non-empty on entry is still non-empty when Execute returns
false. -/
theorem clipperD_execute_false_nonempty_output :
    ((ClipperD.init 0).Execute2 BaseExecResult.failed [[PointD.mk 1 1]]).1 = false ∧
    ((ClipperD.init 0).Execute2 BaseExecResult.failed [[PointD.mk 1 1]]).2 ≠ [] := by
  constructor
  · rfl
  · simp [ClipperD.Execute2]

/-- C1 (amended): when `ClipperD::Execute` returns false it has written
nothing to the caller's output containers (closed, and open when present) —
they hold exactly their contents at entry; in particular they are empty
whenever the caller passed them in empty. -/
theorem clipperD_execute_failure_leaves_outputs_unchanged
    (c : ClipperD) (base : BaseExecResult) (cp op : PathsD) :
    ((c.Execute2 base cp).1 = false → (c.Execute2 base cp).2 = cp) ∧
    ((c.Execute3 base cp op).1 = false →
      (c.Execute3 base cp op).2.1 = cp ∧ (c.Execute3 base cp op).2.2 = op) := by
  cases base with
  | failed => exact ⟨fun _ => rfl, fun _ => ⟨rfl, rfl⟩⟩
  | ok c64 o64 =>
      constructor
      · intro h
        simp [ClipperD.Execute2] at h
      · intro h
        simp [ClipperD.Execute3] at h

theorem clipperD_execute_failure_leaves_outputs_unchanged_witness :
    ((ClipperD.init 0).Execute2 BaseExecResult.failed []).2 = [] :=
  (clipperD_execute_failure_leaves_outputs_unchanged
    (ClipperD.init 0) BaseExecResult.failed [] []).1 rfl

theorem scale_roundtrip_coord (p : ℤ) (x : ℤ) :
    round (((x : ℚ) * (10 : ℚ) ^ (-p)) * (10 : ℚ) ^ p) = x := by
  rw [mul_assoc, zpow_neg,
    inv_mul_cancel₀ (zpow_ne_zero _ (by norm_num : (10 : ℚ) ≠ 0)), mul_one,
    round_intCast]

theorem scale_roundtrip_point (p : ℤ) (pt : Point64) :
    Point64.mk (round (((pt.x : ℚ) * (10 : ℚ) ^ (-p)) * (10 : ℚ) ^ p))
      (round (((pt.y : ℚ) * (10 : ℚ) ^ (-p)) * (10 : ℚ) ^ p)) = pt := by
  rw [scale_roundtrip_coord, scale_roundtrip_coord]

theorem scale_roundtrip_path (p : ℤ) (path : Path64) :
    List.map
      (fun pt : PointD =>
        Point64.mk (round (pt.x * (10 : ℚ) ^ p)) (round (pt.y * (10 : ℚ) ^ p)))
      (List.map
        (fun pt : Point64 =>
          PointD.mk ((pt.x : ℚ) * (10 : ℚ) ^ (-p)) ((pt.y : ℚ) * (10 : ℚ) ^ (-p)))
        path) = path := by
  induction path with
  | nil => rfl
  | cons pt rest ih =>
      simp only [List.map_cons]
      rw [ih]
      exact congrArg (fun z => z :: rest) (scale_roundtrip_point p pt)

theorem ScalePaths_roundtrip (p : ℤ) (paths : Paths64) :
    ScalePathsD64 (ScalePaths64D paths ((10 : ℚ) ^ (-p))) ((10 : ℚ) ^ p) = paths := by
  induction paths with
  | nil => rfl
  | cons path rest ih =>
      simp only [ScalePathsD64, ScalePaths64D, List.map_cons] at ih ⊢
      rw [ih]
      exact congrArg (fun z => z :: rest) (scale_roundtrip_path p path)

/-- C3: a `ClipperD` built with precision `p` scales every coordinate handed
to AddSubject / AddOpenSubject / AddClip by `10^p` before passing it to the
integer core, scales every core output coordinate by `10^(-p)` on a
successful Execute, and the two factors are inverse: rescaling a core output
path by `10^(-p)` and then by `10^p` is the identity. -/
theorem clipperD_scaling_inverse_powers (p : ℤ)
    (subjects : PathsD) (closed64 open64 : Paths64) :
    ((ClipperD.init p).AddSubject subjects).added_paths_ =
      [(ScalePathsD64 subjects ((10 : ℚ) ^ p), PathType.Subject, false)] ∧
    ((ClipperD.init p).AddOpenSubject subjects).added_paths_ =
      [(ScalePathsD64 subjects ((10 : ℚ) ^ p), PathType.Subject, true)] ∧
    ((ClipperD.init p).AddClip subjects).added_paths_ =
      [(ScalePathsD64 subjects ((10 : ℚ) ^ p), PathType.Clip, false)] ∧
    (ClipperD.init p).Execute3 (BaseExecResult.ok closed64 open64) [] [] =
      (true, ScalePaths64D closed64 ((10 : ℚ) ^ (-p)),
             ScalePaths64D open64 ((10 : ℚ) ^ (-p))) ∧
    ScalePathsD64 (ScalePaths64D closed64 ((10 : ℚ) ^ (-p))) ((10 : ℚ) ^ p) =
      closed64 := by
  have hscale : (1 : ℚ) / (10 : ℚ) ^ p = (10 : ℚ) ^ (-p) := by
    rw [zpow_neg, one_div]
  refine ⟨rfl, rfl, rfl, ?_, ScalePaths_roundtrip p closed64⟩
  simp [ClipperD.Execute3, ClipperD.init, hscale]

/-! ## Test-file serialization (Utils/ClipFileSave.cpp)

A C++ output stream is modelled as the list of characters written to it;
`endl` writes a single newline character. -/

abbrev Chars := List Char

/-- Modelled from the spec: `operator<<(ostream, Point64)` (clipper.core.h is
not in src/) writes the point as `x,y` (test format: `<x,y, x,y, …>`, "points
comma-space separated"). -/
def Point64.chars (pt : Point64) : Chars :=
  (toString pt.x).toList ++ [','] ++ (toString pt.y).toList

/-- One iteration block of `PathsToStream` (ClipFileSave.cpp lines 214-223):
an empty path is skipped (`continue`); otherwise every point up to but not
including the last is written followed by `", "`, then the last point
followed by `endl`. -/
def PathToStream : Path64 → Chars
  | [] => []
  | pt0 :: rest =>
      ((pt0 :: rest).dropLast.foldl
        (fun acc pt => acc ++ pt.chars ++ (", ").toList) []) ++
        ((pt0 :: rest).getLast (List.cons_ne_nil pt0 rest)).chars ++ ['\n']

/-- `PathsToStream` (ClipFileSave.cpp line 212): the paths are written to the
stream one after the other. -/
def PathsToStream : Paths64 → Chars
  | [] => []
  | path :: rest => PathToStream path ++ PathsToStream rest

theorem pathFold_eq (sep : Chars) (l : List Point64) :
    ∀ acc : Chars,
      l.foldl (fun acc pt => acc ++ pt.chars ++ sep) acc =
        acc ++ (l.map (fun pt => pt.chars ++ sep)).flatten := by
  induction l with
  | nil => intro acc; simp
  | cons pt rest ih =>
      intro acc
      simp only [List.foldl_cons, List.map_cons, List.flatten_cons]
      rw [ih]
      simp [List.append_assoc]

theorem flatten_sep_append_last (sep last : Chars) :
    ∀ l : List Chars,
      (l.map (fun a => a ++ sep)).flatten ++ last =
        List.intercalate sep (l ++ [last]) := by
  intro l
  induction l with
  | nil => simp [List.intercalate]
  | cons a t ih =>
      cases t with
      | nil => simp [List.intercalate, List.intersperse]
      | cons b t' =>
          simp only [List.map_cons, List.flatten_cons, List.cons_append,
            List.intercalate, List.intersperse] at ih ⊢
          rw [List.append_assoc, List.append_assoc, ih]
          rfl

theorem PathToStream_eq (path : Path64) (h : path ≠ []) :
    PathToStream path =
      List.intercalate (", ").toList (path.map Point64.chars) ++ ['\n'] := by
  match path, h with
  | pt0 :: rest, _ =>
      show ((pt0 :: rest).dropLast.foldl
          (fun acc pt => acc ++ pt.chars ++ (", ").toList) []) ++
          ((pt0 :: rest).getLast (List.cons_ne_nil pt0 rest)).chars ++ ['\n'] = _
      rw [pathFold_eq, List.nil_append, List.append_assoc]
      have hmm : (pt0 :: rest).dropLast.map
          (fun pt => pt.chars ++ (", ").toList) =
          ((pt0 :: rest).dropLast.map Point64.chars).map
            (fun a => a ++ (", ").toList) := by
        rw [List.map_map]
        rfl
      rw [hmm, ← List.append_assoc, flatten_sep_append_last]
      have hlast : ((pt0 :: rest).dropLast.map Point64.chars) ++
          [((pt0 :: rest).getLast (List.cons_ne_nil pt0 rest)).chars] =
          (pt0 :: rest).map Point64.chars := by
        conv_rhs => rw [← List.dropLast_append_getLast (List.cons_ne_nil pt0 rest)]
        rw [List.map_append]
        rfl
      rw [hlast]

/-- Lines of the `PathsToStream` output: one line per non-empty path, its
points joined by `", "`. -/
def pathLines (paths : Paths64) : List Chars :=
  (paths.filter (fun path => !path.isEmpty)).map
    (fun path => List.intercalate (", ").toList (path.map Point64.chars))

/-- Join a list of lines into a character stream, terminating each line with
a newline. -/
def linesJoin (lines : List Chars) : Chars :=
  (lines.map (fun l => l ++ ['\n'])).flatten

theorem linesJoin_append (a b : List Chars) :
    linesJoin (a ++ b) = linesJoin a ++ linesJoin b := by
  simp [linesJoin]

theorem linesJoin_cons (l : Chars) (rest : List Chars) :
    linesJoin (l :: rest) = l ++ ['\n'] ++ linesJoin rest := by
  simp [linesJoin, List.append_assoc]

theorem PathsToStream_eq_lines (paths : Paths64) :
    PathsToStream paths = linesJoin (pathLines paths) := by
  induction paths with
  | nil => rfl
  | cons path rest ih =>
      cases path with
      | nil =>
          show PathToStream [] ++ PathsToStream rest = _
          rw [ih]
          rfl
      | cons pt0 ptRest =>
          show PathToStream (pt0 :: ptRest) ++ PathsToStream rest = _
          rw [PathToStream_eq (pt0 :: ptRest) (List.cons_ne_nil pt0 ptRest), ih]
          have hfil : pathLines ((pt0 :: ptRest) :: rest) =
              List.intercalate (", ").toList ((pt0 :: ptRest).map Point64.chars) ::
                pathLines rest := by
            simp [pathLines, List.filter_cons]
          rw [hfil, linesJoin_cons]

/-- C8: `PathsToStream` writes each non-empty path as exactly one
newline-terminated chunk whose points are joined by the two-character
separator `", "` with no trailing separator, and writes nothing at all for an
empty path. -/
theorem pathsToStream_line_per_path (paths : Paths64) :
    PathsToStream paths =
      ((paths.filter (fun path => !path.isEmpty)).map
        (fun path =>
          List.intercalate (", ").toList (path.map Point64.chars) ++ ['\n'])).flatten ∧
    PathToStream [] = [] := by
  refine ⟨?_, rfl⟩
  rw [PathsToStream_eq_lines]
  simp only [linesJoin, pathLines, List.map_map]
  rfl

/-- The CLIPTYPE keyword (ClipFileSave.cpp lines 259-267). -/
def cliptypeString : ClipType → Chars
  | ClipType.None => ("NONE").toList
  | ClipType.Intersection => ("INTERSECTION").toList
  | ClipType.Union => ("UNION").toList
  | ClipType.Difference => ("DIFFERENCE").toList
  | ClipType.Xor => ("XOR").toList

/-- The FILLRULE keyword (ClipFileSave.cpp lines 269-276). -/
def fillruleString : FillRule → Chars
  | FillRule.EvenOdd => ("EVENODD").toList
  | FillRule.NonZero => ("NONZERO").toList
  | FillRule.Positive => ("POSITIVE").toList
  | FillRule.Negative => ("NEGATIVE").toList

/-- The write sequence of `SaveTest` after the caption number has been
computed (ClipFileSave.cpp lines 278-298): the caption, cliptype, fillrule,
solution-area and solution-count lines, the optional SUBJECTS /
SUBJECTS_OPEN / CLIPS sections (CLIPS only when the clip pointer is non-null
and the container non-empty), and a final lone `endl`. -/
def saveTestBody (last_text_no : ℤ) (ct : ClipType) (fr : FillRule)
    (area count : ℤ) (subj subj_open clip : Option Paths64) : Chars :=
  ("CAPTION: ").toList ++ (toString last_text_no).toList ++ (".").toList ++ ['\n'] ++
  ("CLIPTYPE: ").toList ++ cliptypeString ct ++ ['\n'] ++
  ("FILLRULE: ").toList ++ fillruleString fr ++ ['\n'] ++
  ("SOL_AREA: ").toList ++ (toString area).toList ++ ['\n'] ++
  ("SOL_COUNT: ").toList ++ (toString count).toList ++ ['\n'] ++
  (match subj with
   | none => []
   | some s => ("SUBJECTS").toList ++ ['\n'] ++ PathsToStream s) ++
  (match subj_open with
   | none => []
   | some s => ("SUBJECTS_OPEN").toList ++ ['\n'] ++ PathsToStream s) ++
  (match clip with
   | none => []
   | some c =>
      if c.length ≠ 0 then ("CLIPS").toList ++ ['\n'] ++ PathsToStream c
      else []) ++
  ['\n']

theorem linesJoin_nil : linesJoin [] = [] := rfl

theorem sections_join (subj subj_open clip : Option Paths64) :
    (match subj with
     | none => ([] : Chars)
     | some s => ("SUBJECTS").toList ++ ['\n'] ++ PathsToStream s) ++
    (match subj_open with
     | none => ([] : Chars)
     | some s => ("SUBJECTS_OPEN").toList ++ ['\n'] ++ PathsToStream s) ++
    (match clip with
     | none => ([] : Chars)
     | some c =>
        if c.length ≠ 0 then ("CLIPS").toList ++ ['\n'] ++ PathsToStream c
        else []) ++
    ['\n'] =
    linesJoin
      ((match subj with
        | none => ([] : List Chars)
        | some s => ("SUBJECTS").toList :: pathLines s) ++
       (match subj_open with
        | none => ([] : List Chars)
        | some s => ("SUBJECTS_OPEN").toList :: pathLines s) ++
       (match clip with
        | none => ([] : List Chars)
        | some c =>
           if c.length ≠ 0 then ("CLIPS").toList :: pathLines c else []) ++
       [[]]) := by
  rw [linesJoin_append, linesJoin_append, linesJoin_append]
  have h1 : (match subj with
      | none => ([] : Chars)
      | some s => ("SUBJECTS").toList ++ ['\n'] ++ PathsToStream s) =
      linesJoin (match subj with
      | none => ([] : List Chars)
      | some s => ("SUBJECTS").toList :: pathLines s) := by
    rcases subj with _ | s
    · rfl
    · show ("SUBJECTS").toList ++ ['\n'] ++ PathsToStream s =
        linesJoin (("SUBJECTS").toList :: pathLines s)
      rw [linesJoin_cons, PathsToStream_eq_lines]
  have h2 : (match subj_open with
      | none => ([] : Chars)
      | some s => ("SUBJECTS_OPEN").toList ++ ['\n'] ++ PathsToStream s) =
      linesJoin (match subj_open with
      | none => ([] : List Chars)
      | some s => ("SUBJECTS_OPEN").toList :: pathLines s) := by
    rcases subj_open with _ | s
    · rfl
    · show ("SUBJECTS_OPEN").toList ++ ['\n'] ++ PathsToStream s =
        linesJoin (("SUBJECTS_OPEN").toList :: pathLines s)
      rw [linesJoin_cons, PathsToStream_eq_lines]
  have h3 : (match clip with
      | none => ([] : Chars)
      | some c =>
         if c.length ≠ 0 then ("CLIPS").toList ++ ['\n'] ++ PathsToStream c
         else []) =
      linesJoin (match clip with
      | none => ([] : List Chars)
      | some c =>
         if c.length ≠ 0 then ("CLIPS").toList :: pathLines c else []) := by
    rcases clip with _ | c
    · rfl
    · show (if c.length ≠ 0 then ("CLIPS").toList ++ ['\n'] ++ PathsToStream c
          else []) =
        linesJoin (if c.length ≠ 0 then ("CLIPS").toList :: pathLines c else [])
      by_cases hc : c.length ≠ 0
      · rw [if_pos hc, if_pos hc, linesJoin_cons, PathsToStream_eq_lines]
      · rw [if_neg hc, if_neg hc]
        rfl
  have h4 : (['\n'] : Chars) = linesJoin [[]] := by
    simp [linesJoin]
  rw [h1, h2, h3, h4]

/-- C6: every `SaveTest` call writes one block consisting, in order, of a
`CAPTION: <n>.` line, a `CLIPTYPE: ` line whose keyword is exactly NONE,
INTERSECTION, UNION, DIFFERENCE or XOR according to the clip type, a
`FILLRULE: ` line whose keyword is exactly EVENODD, NONZERO, POSITIVE or
NEGATIVE according to the fill rule, a SOL_AREA line, a SOL_COUNT line, the
optional SUBJECTS / SUBJECTS_OPEN / CLIPS path sections, and a terminating
blank line. -/
theorem saveTest_block_structure (n area count : ℤ) (ct : ClipType)
    (fr : FillRule) (subj subj_open clip : Option Paths64) :
    saveTestBody n ct fr area count subj subj_open clip =
      linesJoin
        ((("CAPTION: ").toList ++ (toString n).toList ++ (".").toList) ::
         (("CLIPTYPE: ").toList ++ cliptypeString ct) ::
         (("FILLRULE: ").toList ++ fillruleString fr) ::
         (("SOL_AREA: ").toList ++ (toString area).toList) ::
         (("SOL_COUNT: ").toList ++ (toString count).toList) ::
         ((match subj with
           | none => []
           | some s => ("SUBJECTS").toList :: pathLines s) ++
          (match subj_open with
           | none => []
           | some s => ("SUBJECTS_OPEN").toList :: pathLines s) ++
          (match clip with
           | none => []
           | some c =>
              if c.length ≠ 0 then ("CLIPS").toList :: pathLines c else []) ++
          [[]])) ∧
    cliptypeString ct =
      (match ct with
       | ClipType.None => ("NONE").toList
       | ClipType.Intersection => ("INTERSECTION").toList
       | ClipType.Union => ("UNION").toList
       | ClipType.Difference => ("DIFFERENCE").toList
       | ClipType.Xor => ("XOR").toList) ∧
    fillruleString fr =
      (match fr with
       | FillRule.EvenOdd => ("EVENODD").toList
       | FillRule.NonZero => ("NONZERO").toList
       | FillRule.Positive => ("POSITIVE").toList
       | FillRule.Negative => ("NEGATIVE").toList) := by
  refine ⟨?_, by cases ct <;> rfl, by cases fr <;> rfl⟩
  unfold saveTestBody
  rw [linesJoin_cons, linesJoin_cons, linesJoin_cons, linesJoin_cons, linesJoin_cons,
    ← sections_join]
  simp [List.append_assoc]

/-! ## Boyer-Moore-Horspool search (ClipFileSave.cpp lines 16-209)

Bytes are naturals below 256; the haystack and needle are byte lists. -/

/-- The case-blind table built by `BMH_Search::Init` (lines 56-59): bytes
0x61..0x7a (lowercase a-z) map to their uppercase forms, all others map to
themselves. -/
def caseTable (c : ℕ) : ℕ :=
  if 0x61 ≤ c ∧ c ≤ 0x7a then c - 0x20 else c

/-- A haystack read at a possibly out-of-buffer position: the comparison loop
of `FindNext_IgnoreCase` reads `*(j + i)` where `j = current -
needle_len_less1` may point below the buffer while `current` is still within
the first `needle_len_less1` bytes.  Such a read is modelled as the
out-of-byte-range value 256, which compares unequal to every needle byte. -/
def hayAtI (hay : List ℕ) (idx : ℤ) : ℕ :=
  if 0 ≤ idx ∧ idx < (hay.length : ℤ) then hay.getD idx.toNat 0 else 256

/-- One write of the shift-table loop of `SetNeedle` (line 161):
`shift[needle_[j]] = needle_len_less1 - j`. -/
def setStep (needle : List ℕ) (tbl : List ℕ) (j : ℕ) : List ℕ :=
  tbl.set (needle.getD j 0) (needle.length - 1 - j)

/-- The shift table after `std::fill(..., needle_len_)` and the loop over
`j < needle_len_less1` (lines 159-161), before the final-byte entry is
zeroed.  The source keeps the table entries, `jump_` and the loop counters
in `uint8_t` while the lengths are `unsigned`: for needles of 256 or more
bytes the fill value wraps modulo 256 and the `uint8_t` counters never reach
the bound, so `SetNeedle` is well-defined only for needle lengths up to 255;
this unbounded-ℕ model coincides with the source exactly in that range, and
every theorem about an arbitrary needle carries a `needle.length ≤ 255`
hypothesis. -/
def shiftBase (needle : List ℕ) : List ℕ :=
  (List.range (needle.length - 1)).foldl (setStep needle)
    (List.replicate 256 needle.length)

/-- `needle_[needle_len_less1]`, the last byte of the needle. -/
def lastNeedleByte (needle : List ℕ) : ℕ :=
  needle.getD (needle.length - 1) 0

/-- `jump_ = shift[needle_[needle_len_less1]]` (line 162), read before that
entry is zeroed. -/
def jumpOf (needle : List ℕ) : ℕ :=
  (shiftBase needle).getD (lastNeedleByte needle) 0

/-- The final shift table: `shift[needle_[needle_len_less1]] = 0`
(line 163). -/
def shiftTable (needle : List ℕ) : List ℕ :=
  (shiftBase needle).set (lastNeedleByte needle) 0

/-- The `while (current < end)` loop of `FindNext_IgnoreCase` (lines 86-109),
continued across successive `FindNext()` calls: after a match at `j =
current - needle_len_less1` the function returns with `current` advanced by
one, and the next `FindNext()` resumes the same loop.  The list of all
reported `last_found` positions (as offsets from the haystack base, possibly
negative for an out-of-buffer pointer) is collected.  `fuel` bounds the
number of iterations; every branch advances `current` by at least one when
`jump ≥ 1`, so `hay.length + 1` iterations suffice. -/
def bmhScanIC (nIC shift : List ℕ) (jump L : ℕ) (hay : List ℕ) :
    ℕ → ℕ → List ℤ
  | 0, _ => []
  | fuel + 1, current =>
    if current < hay.length then
      if shift.getD (caseTable (hay.getD current 0)) 0 = 0 then
        if (List.range L).all
            (fun t => nIC.getD t 0 == caseTable (hayAtI hay ((current : ℤ) - L + t))) then
          ((current : ℤ) - L) :: bmhScanIC nIC shift jump L hay fuel (current + 1)
        else bmhScanIC nIC shift jump L hay fuel (current + jump)
      else
        bmhScanIC nIC shift jump L hay fuel
          (current + shift.getD (caseTable (hay.getD current 0)) 0)
    else []

/-- All positions reported by a `FindFirst()` / `FindNext()` sequence of
`BMH_Search` in case-insensitive mode, with the needle installed by
`SetNeedle` (lines 141-164).  `needle_ic_` holds the case-folded needle (the
fold loop of lines 155-157, taken in its evident in-place reading, maps
`case_table` over the copied needle bytes).  `SetNeedle` returns before
installing anything when the needle is empty.  As with `shiftBase`, the
`uint8_t` state makes this model exact only for needle lengths 1..255: at
256 or more bytes the source's `SetNeedle` loops do not terminate, which
this total function does not reproduce. -/
def BMH_FindAll_IgnoreCase (needle hay : List ℕ) : List ℤ :=
  if needle.length = 0 then []
  else
    bmhScanIC (needle.map caseTable) (shiftTable needle) (jumpOf needle)
      (needle.length - 1) hay (hay.length + 1) 0

/-- The positions at which the haystack matches the needle under ASCII case
folding: start offsets `j` such that the folded window of needle length at
`j` equals the folded needle. -/
def foldedMatches (needle hay : List ℕ) : List ℕ :=
  (List.range (hay.length + 1 - needle.length)).filter
    (fun j =>
      decide (((hay.drop j).take needle.length).map caseTable =
        needle.map caseTable))

/-! ### Shift-table lemmas -/

theorem caseTable_lt_256 (b : ℕ) (hb : b < 256) : caseTable b < 256 := by
  unfold caseTable
  split <;> omega

theorem caseTable_256 : caseTable 256 = 256 := by
  decide

theorem getD_set_same (tbl : List ℕ) (k v : ℕ) (hk : k < tbl.length) :
    (tbl.set k v).getD k 0 = v := by
  simp [List.getD_eq_getElem?_getD, List.getElem?_set_self hk]

theorem getD_set_other (tbl : List ℕ) (k v c : ℕ) (hne : k ≠ c) :
    (tbl.set k v).getD c 0 = tbl.getD c 0 := by
  simp [List.getD_eq_getElem?_getD, List.getElem?_set_ne hne]

theorem getD_replicate_lt (n a c : ℕ) (hc : c < n) :
    (List.replicate n a).getD c 0 = a := by
  simp [List.getD_eq_getElem?_getD, List.getElem?_replicate, hc]

theorem foldl_setStep_length (needle : List ℕ) (js : List ℕ) :
    ∀ tbl : List ℕ, (js.foldl (setStep needle) tbl).length = tbl.length := by
  induction js with
  | nil => intro tbl; rfl
  | cons j js ih =>
      intro tbl
      rw [List.foldl_cons, ih]
      simp [setStep]

theorem shiftBase_length (needle : List ℕ) : (shiftBase needle).length = 256 := by
  unfold shiftBase
  rw [foldl_setStep_length]
  simp

theorem shiftTable_length (needle : List ℕ) : (shiftTable needle).length = 256 := by
  unfold shiftTable
  simp [shiftBase_length]

theorem foldl_setStep_mem_bounds (needle : List ℕ) (lo hi : ℕ) (js : List ℕ) :
    ∀ tbl : List ℕ, tbl.length = 256 →
      (∀ c, c < 256 → lo ≤ tbl.getD c 0 ∧ tbl.getD c 0 ≤ hi) →
      (∀ j ∈ js, lo ≤ needle.length - 1 - j ∧ needle.length - 1 - j ≤ hi) →
      ∀ c, c < 256 →
        lo ≤ (js.foldl (setStep needle) tbl).getD c 0 ∧
          (js.foldl (setStep needle) tbl).getD c 0 ≤ hi := by
  induction js with
  | nil => intro tbl _ h _ c hc; exact h c hc
  | cons j js ih =>
      intro tbl htbl h hjs c hc
      rw [List.foldl_cons]
      refine ih (setStep needle tbl j) (by simp [setStep, htbl]) ?_
        (fun j' hj' => hjs j' (List.mem_cons_of_mem j hj')) c hc
      intro c' hc'
      by_cases hk : needle.getD j 0 = c'
      · rw [setStep, hk, getD_set_same tbl c' _ (by omega)]
        exact hjs j (List.mem_cons_self j js)
      · rw [setStep, getD_set_other _ _ _ _ hk]
        exact h c' hc'

theorem foldl_setStep_notin (needle : List ℕ) (c : ℕ) (js : List ℕ) :
    ∀ tbl : List ℕ, (∀ j ∈ js, needle.getD j 0 ≠ c) →
      (js.foldl (setStep needle) tbl).getD c 0 = tbl.getD c 0 := by
  induction js with
  | nil => intro tbl _; rfl
  | cons j js ih =>
      intro tbl h
      rw [List.foldl_cons, ih _ (fun j' hj' => h j' (List.mem_cons_of_mem j hj')),
        setStep, getD_set_other _ _ _ _ (h j (List.mem_cons_self j js))]

theorem foldl_setStep_occ (needle : List ℕ) (js : List ℕ) :
    js.Pairwise (· < ·) →
    ∀ tbl : List ℕ, tbl.length = 256 →
    ∀ p, p ∈ js → needle.getD p 0 < 256 →
      (js.foldl (setStep needle) tbl).getD (needle.getD p 0) 0 ≤
        needle.length - 1 - p := by
  induction js with
  | nil => intro _ tbl _ p hp; exact absurd hp (List.not_mem_nil p)
  | cons j js ih =>
      intro hpw tbl htbl p hp hpb
      rw [List.foldl_cons]
      rcases List.mem_cons.mp hp with rfl | hp'
      · by_cases hocc : ∃ q ∈ js, needle.getD q 0 = needle.getD p 0
        · obtain ⟨q, hq, hqe⟩ := hocc
          have hlt : p < q := (List.pairwise_cons.mp hpw).1 q hq
          have hq256 : needle.getD q 0 < 256 := by rw [hqe]; exact hpb
          have hb := ih (List.Pairwise.of_cons hpw) (setStep needle tbl p)
            (by simp [setStep, htbl]) q hq hq256
          rw [hqe] at hb
          exact le_trans hb (by omega)
        · push_neg at hocc
          rw [foldl_setStep_notin needle _ js _ hocc, setStep,
            getD_set_same _ _ _ (by omega)]
      · exact ih (List.Pairwise.of_cons hpw) (setStep needle tbl j)
          (by simp [setStep, htbl]) p hp' hpb

theorem shiftBase_bounds (needle : List ℕ) (hlen : 1 ≤ needle.length)
    (c : ℕ) (hc : c < 256) :
    1 ≤ (shiftBase needle).getD c 0 ∧
      (shiftBase needle).getD c 0 ≤ needle.length := by
  unfold shiftBase
  refine foldl_setStep_mem_bounds needle 1 needle.length
    (List.range (needle.length - 1)) (List.replicate 256 needle.length)
    (by simp) ?_ ?_ c hc
  · intro c' hc'
    rw [getD_replicate_lt _ _ _ hc']
    omega
  · intro j hj
    have := List.mem_range.mp hj
    omega

theorem shiftBase_occ (needle : List ℕ) (p : ℕ) (hp : p < needle.length - 1)
    (hpb : needle.getD p 0 < 256) :
    (shiftBase needle).getD (needle.getD p 0) 0 ≤ needle.length - 1 - p := by
  unfold shiftBase
  exact foldl_setStep_occ needle (List.range (needle.length - 1))
    (List.pairwise_lt_range _) (List.replicate 256 needle.length) (by simp)
    p (List.mem_range.mpr hp) hpb

theorem lastNeedleByte_mem (needle : List ℕ) (hlen : 1 ≤ needle.length) :
    lastNeedleByte needle ∈ needle := by
  unfold lastNeedleByte
  rw [List.getD_eq_getElem _ _ (by omega)]
  exact List.getElem_mem _

theorem shiftTable_last (needle : List ℕ) (hb : lastNeedleByte needle < 256) :
    (shiftTable needle).getD (lastNeedleByte needle) 0 = 0 := by
  unfold shiftTable
  exact getD_set_same _ _ _ (by rw [shiftBase_length]; exact hb)

theorem shiftTable_ne (needle : List ℕ) (c : ℕ)
    (hne : lastNeedleByte needle ≠ c) :
    (shiftTable needle).getD c 0 = (shiftBase needle).getD c 0 := by
  unfold shiftTable
  exact getD_set_other _ _ _ _ hne

theorem shiftTable_eq_zero_iff (needle : List ℕ) (hlen : 1 ≤ needle.length)
    (hb : lastNeedleByte needle < 256) (c : ℕ) (hc : c < 256) :
    (shiftTable needle).getD c 0 = 0 ↔ c = lastNeedleByte needle := by
  constructor
  · intro h0
    by_contra hne
    rw [shiftTable_ne needle c (fun he => hne he.symm)] at h0
    have := (shiftBase_bounds needle hlen c hc).1
    omega
  · intro he
    rw [he]
    exact shiftTable_last needle hb

theorem shiftTable_le (needle : List ℕ) (hlen : 1 ≤ needle.length)
    (c : ℕ) (hc : c < 256) :
    (shiftTable needle).getD c 0 ≤ needle.length := by
  by_cases he : lastNeedleByte needle = c
  · rw [← he, shiftTable_last needle (he ▸ hc)]
    omega
  · rw [shiftTable_ne needle c he]
    exact (shiftBase_bounds needle hlen c hc).2

theorem shiftTable_occ (needle : List ℕ) (p : ℕ) (hp : p < needle.length - 1)
    (hpb : needle.getD p 0 < 256)
    (hpne : needle.getD p 0 ≠ lastNeedleByte needle) :
    (shiftTable needle).getD (needle.getD p 0) 0 ≤ needle.length - 1 - p := by
  rw [shiftTable_ne needle _ (fun he => hpne he.symm)]
  exact shiftBase_occ needle p hp hpb

theorem jumpOf_pos (needle : List ℕ) (hlen : 1 ≤ needle.length)
    (hb : lastNeedleByte needle < 256) : 1 ≤ jumpOf needle :=
  (shiftBase_bounds needle hlen _ hb).1

theorem jumpOf_le (needle : List ℕ) (hlen : 1 ≤ needle.length)
    (hb : lastNeedleByte needle < 256) : jumpOf needle ≤ needle.length :=
  (shiftBase_bounds needle hlen _ hb).2

theorem jumpOf_occ (needle : List ℕ) (p : ℕ) (hp : p < needle.length - 1)
    (hpe : needle.getD p 0 = lastNeedleByte needle)
    (hpb : needle.getD p 0 < 256) :
    jumpOf needle ≤ needle.length - 1 - p := by
  unfold jumpOf
  rw [← hpe]
  exact shiftBase_occ needle p hp hpb

/-! ### Window lemmas -/

theorem getD_mem_of_lt (l : List ℕ) (k : ℕ) (hk : k < l.length) :
    l.getD k 0 ∈ l := by
  rw [List.getD_eq_getElem _ _ hk]
  exact List.getElem_mem _

theorem window_getD (needle hay : List ℕ) (j i : ℕ)
    (hj : j + needle.length ≤ hay.length) (hi : i < needle.length) :
    (((hay.drop j).take needle.length).map caseTable).getD i 0 =
      caseTable (hay.getD (j + i) 0) := by
  have h1 : i < (((hay.drop j).take needle.length).map caseTable).length := by
    simp only [List.length_map, List.length_take, List.length_drop]
    omega
  rw [List.getD_eq_getElem _ _ h1, List.getD_eq_getElem _ _ (show j + i < hay.length by omega)]
  simp [List.getElem_map, List.getElem_take, List.getElem_drop]

theorem mem_foldedMatches (needle hay : List ℕ) (hlen : 1 ≤ needle.length)
    (hinv : needle.map caseTable = needle) (j : ℕ) :
    j ∈ foldedMatches needle hay ↔
      j + needle.length ≤ hay.length ∧
      ∀ i, i < needle.length →
        caseTable (hay.getD (j + i) 0) = needle.getD i 0 := by
  unfold foldedMatches
  rw [List.mem_filter, List.mem_range]
  constructor
  · rintro ⟨hjr, hpred⟩
    have hj : j + needle.length ≤ hay.length := by omega
    have heq := of_decide_eq_true hpred
    rw [hinv] at heq
    refine ⟨hj, ?_⟩
    intro i hi
    have := window_getD needle hay j i hj hi
    rw [heq] at this
    rw [← this, List.getD_eq_getElem _ _ (by omega : i < needle.length),
      ← List.getD_eq_getElem needle 0 (by omega : i < needle.length)]
  · rintro ⟨hj, hall⟩
    refine ⟨by omega, decide_eq_true ?_⟩
    rw [hinv]
    apply List.ext_getElem
    · simp only [List.length_map, List.length_take, List.length_drop]
      omega
    · intro i h1 h2
      have h3 := window_getD needle hay j i hj (by omega)
      rw [List.getD_eq_getElem _ _ h1] at h3
      rw [h3, hall i (by omega), List.getD_eq_getElem _ _ h2]

/-! ### Inner-comparison lemmas -/

theorem hayAtI_in_range (hay : List ℕ) (k : ℕ) (hk : k < hay.length) :
    hayAtI hay (k : ℤ) = hay.getD k 0 := by
  unfold hayAtI
  rw [if_pos (by constructor <;> omega)]
  simp

theorem hayAtI_neg (hay : List ℕ) (idx : ℤ) (hidx : idx < 0) :
    hayAtI hay idx = 256 := by
  unfold hayAtI
  rw [if_neg (by omega)]

theorem innerOK_iff (needle hay : List ℕ) (hinv : needle.map caseTable = needle)
    (current : ℕ) (hcurL : needle.length - 1 ≤ current)
    (hcur : current < hay.length) :
    ((List.range (needle.length - 1)).all
      (fun t => (needle.map caseTable).getD t 0 ==
        caseTable (hayAtI hay
          ((current : ℤ) - ((needle.length - 1 : ℕ) : ℤ) + (t : ℤ))))) = true ↔
    (∀ t, t < needle.length - 1 →
      caseTable (hay.getD (current - (needle.length - 1) + t) 0) =
        needle.getD t 0) := by
  rw [hinv, List.all_eq_true]
  constructor
  · intro h t ht
    have h1 := h t (List.mem_range.mpr ht)
    rw [beq_iff_eq] at h1
    have hco : ((current : ℤ) - ((needle.length - 1 : ℕ) : ℤ) + (t : ℤ)) =
        ((current - (needle.length - 1) + t : ℕ) : ℤ) := by
      omega
    rw [hco, hayAtI_in_range hay _ (by omega)] at h1
    exact h1.symm
  · intro h t ht
    have ht' := List.mem_range.mp ht
    rw [beq_iff_eq]
    have hco : ((current : ℤ) - ((needle.length - 1 : ℕ) : ℤ) + (t : ℤ)) =
        ((current - (needle.length - 1) + t : ℕ) : ℤ) := by
      omega
    rw [hco, hayAtI_in_range hay _ (by omega)]
    exact (h t ht').symm

theorem innerOK_false_of_lt (needle hay : List ℕ)
    (hinv : needle.map caseTable = needle) (hlen : 1 ≤ needle.length)
    (hnb : ∀ b ∈ needle, b < 256)
    (current : ℕ) (hcurL : current < needle.length - 1) :
    ((List.range (needle.length - 1)).all
      (fun t => (needle.map caseTable).getD t 0 ==
        caseTable (hayAtI hay
          ((current : ℤ) - ((needle.length - 1 : ℕ) : ℤ) + (t : ℤ))))) = false := by
  rw [Bool.eq_false_iff]
  intro hall
  rw [hinv, List.all_eq_true] at hall
  have h0 := hall 0 (List.mem_range.mpr (by omega))
  rw [beq_iff_eq, hayAtI_neg hay _ (by omega), caseTable_256] at h0
  have hmem : needle.getD 0 0 ∈ needle := getD_mem_of_lt needle 0 (by omega)
  have := hnb _ hmem
  omega

/-! ### Filter helpers -/

theorem filter_skip_interval (l : List ℕ) (L a s : ℕ)
    (hnone : ∀ j ∈ l, ¬(a ≤ j + L ∧ j + L < a + s)) :
    l.filter (fun j => decide (a ≤ j + L)) =
      l.filter (fun j => decide (a + s ≤ j + L)) := by
  apply List.filter_congr
  intro j hj
  have hn := hnone j hj
  by_cases hh : a ≤ j + L
  · have h2 : a + s ≤ j + L := by omega
    simp [hh, h2]
  · have h2 : ¬(a + s ≤ j + L) := by omega
    simp [hh, h2]

theorem filter_split_sorted (l : List ℕ) :
    l.Pairwise (· < ·) →
    ∀ a ∈ l,
      l.filter (fun j => decide (a ≤ j)) =
        a :: l.filter (fun j => decide (a + 1 ≤ j)) := by
  induction l with
  | nil => intro _ a ha; exact absurd ha (List.not_mem_nil a)
  | cons b l ih =>
      intro hpw a ha
      have hgt := (List.pairwise_cons.mp hpw).1
      rcases List.mem_cons.mp ha with rfl | ha'
      · rw [List.filter_cons, List.filter_cons]
        have h1 : (decide (a ≤ a)) = true := by simp
        have h2 : (decide (a + 1 ≤ a)) = false := by simp
        rw [h1, h2]
        simp only [if_true, if_false]
        congr 1
        apply List.filter_congr
        intro j hj
        have := hgt j hj
        exact decide_eq_decide.mpr (by omega)
      · have hba : b < a := hgt a ha'
        rw [List.filter_cons, List.filter_cons]
        have h1 : (decide (a ≤ b)) = false := decide_eq_false (by omega)
        have h2 : (decide (a + 1 ≤ b)) = false := decide_eq_false (by omega)
        rw [h1, h2]
        simp only [Bool.false_eq_true, if_false]
        exact ih (List.Pairwise.of_cons hpw) a ha'

theorem foldedMatches_sorted (needle hay : List ℕ) :
    (foldedMatches needle hay).Pairwise (· < ·) := by
  unfold foldedMatches
  exact (List.pairwise_lt_range _).filter _

theorem foldedMatches_bound (needle hay : List ℕ) (j : ℕ)
    (hj : j ∈ foldedMatches needle hay) : j + needle.length ≤ hay.length := by
  unfold foldedMatches at hj
  have := List.mem_range.mp (List.mem_of_mem_filter hj)
  omega

/-! ### Horspool scan correctness for fold-invariant needles -/

theorem bmhScanIC_correct (needle hay : List ℕ)
    (hlen : 1 ≤ needle.length) (hinv : needle.map caseTable = needle)
    (hnb : ∀ b ∈ needle, b < 256) (hhb : ∀ b ∈ hay, b < 256) :
    ∀ fuel current : ℕ, hay.length < fuel + current →
      bmhScanIC (needle.map caseTable) (shiftTable needle) (jumpOf needle)
        (needle.length - 1) hay fuel current =
      ((foldedMatches needle hay).filter
        (fun j => decide (current ≤ j + (needle.length - 1)))).map
        (fun j => Int.ofNat j) := by
  have hlastb : lastNeedleByte needle < 256 := hnb _ (lastNeedleByte_mem needle hlen)
  intro fuel
  induction fuel with
  | zero =>
      intro current hcur
      have hf : (foldedMatches needle hay).filter
          (fun j => decide (current ≤ j + (needle.length - 1))) = [] := by
        rw [List.filter_eq_nil_iff]
        intro j hj
        have := foldedMatches_bound needle hay j hj
        simp only [decide_eq_true_eq]
        omega
      rw [hf]
      rfl
  | succ fuel ih =>
      intro current hcur
      by_cases hcl : current < hay.length
      case neg =>
        rw [bmhScanIC, if_neg hcl]
        have hf : (foldedMatches needle hay).filter
            (fun j => decide (current ≤ j + (needle.length - 1))) = [] := by
          rw [List.filter_eq_nil_iff]
          intro j hj
          have := foldedMatches_bound needle hay j hj
          simp only [decide_eq_true_eq]
          omega
        rw [hf]
        rfl
      case pos =>
        have hcb256 : caseTable (hay.getD current 0) < 256 :=
          caseTable_lt_256 _ (hhb _ (getD_mem_of_lt hay current hcl))
        by_cases hiz :
          (shiftTable needle).getD (caseTable (hay.getD current 0)) 0 = 0
        · -- the final needle byte matches at `current`
          have hlastc : caseTable (hay.getD current 0) = lastNeedleByte needle :=
            (shiftTable_eq_zero_iff needle hlen hlastb _ hcb256).mp hiz
          rw [bmhScanIC, if_pos hcl, if_pos hiz]
          split
          next hall =>
            -- inner comparison succeeded: a genuine match ends at `current`
            have hLle : needle.length - 1 ≤ current := by
              by_contra hnot
              push_neg at hnot
              have hfalse := innerOK_false_of_lt needle hay hinv hlen hnb current hnot
              rw [hall] at hfalse
              exact absurd hfalse (by simp)
            have hmatch : current - (needle.length - 1) ∈ foldedMatches needle hay := by
              rw [mem_foldedMatches needle hay hlen hinv]
              constructor
              · omega
              · intro i hi
                by_cases hiL : i < needle.length - 1
                · exact (innerOK_iff needle hay hinv current hLle hcl).mp hall i hiL
                · have hieq : i = needle.length - 1 := by omega
                  subst hieq
                  rw [show current - (needle.length - 1) + (needle.length - 1) =
                    current by omega, hlastc]
                  rfl
            have e1 : (foldedMatches needle hay).filter
                (fun j => decide (current ≤ j + (needle.length - 1))) =
                (foldedMatches needle hay).filter
                (fun j => decide (current - (needle.length - 1) ≤ j)) :=
              List.filter_congr (fun j _ => decide_eq_decide.mpr (by omega))
            have e2 := filter_split_sorted (foldedMatches needle hay)
              (foldedMatches_sorted needle hay) _ hmatch
            have e3 : (foldedMatches needle hay).filter
                (fun j => decide (current - (needle.length - 1) + 1 ≤ j)) =
                (foldedMatches needle hay).filter
                (fun j => decide (current + 1 ≤ j + (needle.length - 1))) :=
              List.filter_congr (fun j _ => decide_eq_decide.mpr (by omega))
            rw [e1, e2, e3, List.map_cons]
            congr 1
            · rw [Int.ofNat_eq_natCast]
              omega
            · exact ih (current + 1) (by omega)
          next hall =>
            -- inner comparison failed: shift by `jump_`
            have hjpos := jumpOf_pos needle hlen hlastb
            have hjle := jumpOf_le needle hlen hlastb
            rw [ih (current + jumpOf needle) (by omega)]
            have hskip := filter_skip_interval (foldedMatches needle hay)
              (needle.length - 1) current (jumpOf needle) ?_
            · rw [hskip]
            · rintro j hj ⟨h1, h2⟩
              obtain ⟨hjlen, hjall⟩ := (mem_foldedMatches needle hay hlen hinv j).mp hj
              by_cases hje : j + (needle.length - 1) = current
              · have hLle : needle.length - 1 ≤ current := by omega
                refine hall ((innerOK_iff needle hay hinv current hLle hcl).mpr ?_)
                intro t ht
                rw [show current - (needle.length - 1) = j by omega]
                exact hjall t (by omega)
              · have hjle' : j ≤ current := by omega
                have hpL : current - j < needle.length - 1 := by omega
                have hpn : needle.getD (current - j) 0 =
                    caseTable (hay.getD current 0) := by
                  have hh := hjall (current - j) (by omega)
                  rw [show j + (current - j) = current by omega] at hh
                  exact hh.symm
                have hpb : needle.getD (current - j) 0 < 256 :=
                  hnb _ (getD_mem_of_lt needle _ (by omega))
                have hocc := jumpOf_occ needle (current - j) hpL
                  (by rw [hpn, hlastc]) hpb
                omega
        · -- the final needle byte does not match: shift by the table entry
          rw [bmhScanIC, if_pos hcl, if_neg hiz]
          have hipos : 1 ≤ (shiftTable needle).getD
              (caseTable (hay.getD current 0)) 0 := by omega
          have hile := shiftTable_le needle hlen _ hcb256
          rw [ih _ (by omega)]
          have hskip := filter_skip_interval (foldedMatches needle hay)
            (needle.length - 1) current
            ((shiftTable needle).getD (caseTable (hay.getD current 0)) 0) ?_
          · rw [hskip]
          · rintro j hj ⟨h1, h2⟩
            obtain ⟨hjlen, hjall⟩ := (mem_foldedMatches needle hay hlen hinv j).mp hj
            by_cases hje : j + (needle.length - 1) = current
            · have hh := hjall (needle.length - 1) (by omega)
              rw [hje] at hh
              exact hiz ((shiftTable_eq_zero_iff needle hlen hlastb _ hcb256).mpr hh)
            · have hjle' : j ≤ current := by omega
              have hpL : current - j < needle.length - 1 := by omega
              have hpn : needle.getD (current - j) 0 =
                  caseTable (hay.getD current 0) := by
                have hh := hjall (current - j) (by omega)
                rw [show j + (current - j) = current by omega] at hh
                exact hh.symm
              have hpb : needle.getD (current - j) 0 < 256 :=
                hnb _ (getD_mem_of_lt needle _ (by omega))
              by_cases hlast2 : needle.getD (current - j) 0 = lastNeedleByte needle
              · exact hiz ((shiftTable_eq_zero_iff needle hlen hlastb _ hcb256).mpr
                  (hpn.symm.trans hlast2))
              · have hocc := shiftTable_occ needle (current - j) hpL hpb hlast2
                rw [hpn] at hocc
                omega

theorem bmh_findAll_eq_foldedMatches (needle hay : List ℕ)
    (hlen : 1 ≤ needle.length) (hinv : needle.map caseTable = needle)
    (hnb : ∀ b ∈ needle, b < 256) (hhb : ∀ b ∈ hay, b < 256) :
    BMH_FindAll_IgnoreCase needle hay =
      (foldedMatches needle hay).map (fun j => Int.ofNat j) := by
  unfold BMH_FindAll_IgnoreCase
  rw [if_neg (by omega),
    bmhScanIC_correct needle hay hlen hinv hnb hhb (hay.length + 1) 0 (by omega)]
  have hfl : (foldedMatches needle hay).filter
      (fun j => decide (0 ≤ j + (needle.length - 1))) = foldedMatches needle hay :=
    List.filter_eq_self.mpr (fun a _ => by simp)
  rw [hfl]

/-- C7 as stated is false: `BMH_Search` in case-insensitive mode builds its
shift table from the unfolded needle bytes, so a needle containing a
lowercase letter can miss occurrences that exist under ASCII case folding.
With needle "a" and haystack "A" the haystack matches the needle under case
folding at position 0, yet the FindFirst/FindNext sequence reports nothing. -/
theorem bmh_ignoreCase_misses_occurrence :
    BMH_FindAll_IgnoreCase [97] [65] = [] ∧ foldedMatches [97] [65] = [0] := by
  constructor
  · rfl
  · rfl

/-- C7 (amended): for a needle of at most 255 bytes (beyond which the
source's `uint8_t` counters make `SetNeedle` loop forever) that is invariant
under ASCII case folding (no lowercase letters) — in particular the loader's
needle "CAPTION:" — a FindFirst/FindNext sequence of `BMH_Search` in its
default case-insensitive mode reports exactly the positions at which the
haystack matches the needle when letters a-z and A-Z are identified, in
strictly increasing (left-to-right) order. -/
theorem bmh_ignoreCase_reports_folded_occurrences (needle hay : List ℕ)
    (hlen : 1 ≤ needle.length) (hlen255 : needle.length ≤ 255)
    (hinv : needle.map caseTable = needle)
    (hnb : ∀ b ∈ needle, b < 256) (hhb : ∀ b ∈ hay, b < 256) :
    BMH_FindAll_IgnoreCase needle hay =
      (foldedMatches needle hay).map (fun j => Int.ofNat j) ∧
    (BMH_FindAll_IgnoreCase needle hay).Pairwise (· < ·) := by
  refine ⟨bmh_findAll_eq_foldedMatches needle hay hlen hinv hnb hhb, ?_⟩
  rw [bmh_findAll_eq_foldedMatches needle hay hlen hinv hnb hhb]
  refine List.Pairwise.map _ ?_ (foldedMatches_sorted needle hay)
  intro a b hab
  exact Int.ofNat_lt.mpr hab

theorem bmh_ignoreCase_reports_folded_occurrences_witness :
    (BMH_FindAll_IgnoreCase [67, 65, 80, 84, 73, 79, 78, 58]
        [120, 99, 97, 112, 116, 105, 111, 110, 58, 32, 49, 50] =
      (foldedMatches [67, 65, 80, 84, 73, 79, 78, 58]
        [120, 99, 97, 112, 116, 105, 111, 110, 58, 32, 49, 50]).map
        (fun j => Int.ofNat j) ∧
    (BMH_FindAll_IgnoreCase [67, 65, 80, 84, 73, 79, 78, 58]
        [120, 99, 97, 112, 116, 105, 111, 110, 58, 32, 49, 50]).Pairwise (· < ·)) ∧
    foldedMatches [67, 65, 80, 84, 73, 79, 78, 58]
        [120, 99, 97, 112, 116, 105, 111, 110, 58, 32, 49, 50] = [1] :=
  ⟨bmh_ignoreCase_reports_folded_occurrences
      [67, 65, 80, 84, 73, 79, 78, 58]
      [120, 99, 97, 112, 116, 105, 111, 110, 58, 32, 49, 50]
      (by decide) (by decide) (by decide) (by decide) (by decide),
    by decide⟩

/-! ## SaveTest caption numbering (ClipFileSave.cpp lines 226-257) -/

/-- The needle `"CAPTION:"` used by SaveTest's append-mode search. -/
def captionNeedle : List ℕ := [67, 65, 80, 84, 73, 79, 78, 58]

/-- The byte range `[start, FindNextEndLine())` handed to `line.assign`
(line 243): from `start` up to but not including the next CR or LF byte (or
the end of the haystack), i.e. the rest of the caption line. -/
def captionTail (hay : List ℕ) (start : ℕ) : List ℕ :=
  (hay.drop start).takeWhile (fun b => decide (b ≠ 13 ∧ b ≠ 10))

/-- Modelled from the spec: `GetInt` (ClipFileLoad, not in src/) reads an
optional integer from a character range — leading blanks skipped, an optional
sign, then a run of decimal digits; when no digit is found the target is left
unchanged (test format line: `CAPTION: <integer>.`). -/
def getIntFrom (s : List ℕ) : Option ℤ :=
  let t := s.dropWhile (fun b => decide (b = 32 ∨ b = 9))
  let signed : ℤ × List ℕ :=
    match t with
    | 45 :: rest => (-1, rest)
    | 43 :: rest => (1, rest)
    | _ => (1, t)
  let digits := signed.2.takeWhile (fun b => decide (48 ≤ b ∧ b ≤ 57))
  if digits.length = 0 then none
  else some (signed.1 * digits.foldl (fun acc d => acc * 10 + ((d : ℤ) - 48)) 0)

structure SaveTestOutcome where
  removed_existing : Bool
  caption_no : ℤ
  returned : Bool

/-- The file-handling and caption-numbering part of `SaveTest` (lines
229-257): in append mode with an existing file, every `"CAPTION:"`
occurrence is found by the case-insensitive BMH search, the text after the
last one up to the end of its line is parsed by GetInt into `last_text_no`
(0 when there is no occurrence or no integer); otherwise an existing file is
removed.  `last_text_no++` then gives the caption number written into the
block (`saveTestBody`), and SaveTest returns true.  `file` is the content of
the named file, or none when it does not exist. -/
def saveTestCaption (file : Option (List ℕ)) (append : Bool) : SaveTestOutcome :=
  if append ∧ file.isSome then
    let content := file.getD []
    let last_text_no : ℤ :=
      match (BMH_FindAll_IgnoreCase captionNeedle content).getLast? with
      | none => 0
      | some j =>
          match getIntFrom (captionTail content ((j + 8).toNat)) with
          | none => 0
          | some n => n
    { removed_existing := false, caption_no := last_text_no + 1, returned := true }
  else if file.isSome then
    { removed_existing := true, caption_no := 1, returned := true }
  else
    { removed_existing := false, caption_no := 1, returned := true }

/-- C9: `SaveTest` always returns true; with append false an existing file is
first removed and the caption number written is 1; with the file absent the
caption number is 1; with append true and an existing file, the caption
number is 1 when no (case-folded) `CAPTION:` occurrence exists, and the
integer following the last occurrence on its line plus one when one exists
and parses. -/
theorem saveTest_caption_numbering (content : List ℕ) (append : Bool)
    (hb : ∀ b ∈ content, b < 256) :
    (saveTestCaption (some content) append).returned = true ∧
    (saveTestCaption none append).returned = true ∧
    (saveTestCaption (some content) append).removed_existing = !append ∧
    (saveTestCaption none append).removed_existing = false ∧
    (append = false → (saveTestCaption (some content) append).caption_no = 1) ∧
    (saveTestCaption none append).caption_no = 1 ∧
    (append = true → foldedMatches captionNeedle content = [] →
      (saveTestCaption (some content) append).caption_no = 1) ∧
    (append = true →
      ∀ j : ℕ, (foldedMatches captionNeedle content).getLast? = some j →
      ∀ n : ℤ, getIntFrom (captionTail content (j + 8)) = some n →
      (saveTestCaption (some content) append).caption_no = n + 1) := by
  have hbmh := bmh_findAll_eq_foldedMatches captionNeedle content
    (by decide) (by decide) (by decide) hb
  cases append with
  | false =>
      exact ⟨by simp [saveTestCaption], by simp [saveTestCaption],
        by simp [saveTestCaption], by simp [saveTestCaption],
        fun _ => by simp [saveTestCaption], by simp [saveTestCaption],
        fun h => absurd h (by simp), fun h => absurd h (by simp)⟩
  | true =>
      refine ⟨by simp [saveTestCaption], by simp [saveTestCaption],
        by simp [saveTestCaption], by simp [saveTestCaption],
        fun h => absurd h (by simp), by simp [saveTestCaption], ?_, ?_⟩
      · intro _ hempty
        simp [saveTestCaption, hbmh, hempty]
      · intro _ j hj n hn
        have htn : ((j : ℤ) + 8).toNat = j + 8 := by omega
        simp [saveTestCaption, hbmh, List.getLast?_map, hj, htn, hn]

theorem saveTest_caption_numbering_witness :
    (saveTestCaption
      (some [67, 65, 80, 84, 73, 79, 78, 58, 32, 50, 46, 10,
             99, 97, 112, 116, 105, 111, 110, 58, 32, 52, 49, 46])
      true).caption_no = 41 + 1 :=
  (saveTest_caption_numbering
    [67, 65, 80, 84, 73, 79, 78, 58, 32, 50, 46, 10,
     99, 97, 112, 116, 105, 111, 110, 58, 32, 52, 49, 46]
    true (by decide)).2.2.2.2.2.2.2 rfl 12 (by decide) 41 (by decide)
